import Mathlib

/-!
Verification of the batch file-renaming scripts `movierenamer.py` and
`pdfrenamer.py`.

Strings are embedded as `List Char`; a directory listing is a `List (List Char)`
of file names; where file identity matters (overwriting) a directory is a
`List (List Char × Nat)` of (name, file id) pairs.  Python's unbounded
`while True` collision probe is embedded with an explicit fuel parameter.
External library calls (BLIP captioning, BART summarization, PyPDF2 text
extraction, unicodedata NFKD) are modelled as parameters or per-file data
fields, since the scripts use their results opaquely.
-/

/-- `s.map Char.toLower`: embedding of Python `str.lower()` (ASCII range,
as Lean's `Char.toLower`). -/
def toLowerL (s : List Char) : List Char := s.map Char.toLower

/-- Embedding of Python's substring test `pat in s`. -/
def containsSub (s pat : List Char) : Bool := s.tails.any (fun t => pat.isPrefixOf t)

/-- Embedding of Python `s.endswith(pat)`. -/
def endsWithL (s pat : List Char) : Bool := pat.isSuffixOf s

/-- Embedding of Python `s.startswith(pat)`. -/
def startsWithL (s pat : List Char) : Bool := pat.isPrefixOf s

/-- Index of the last `'.'` in a name, if any. -/
def lastDotIdx (s : List Char) : Option Nat :=
  let r := s.reverse.indexOf ('.')
  if r < s.length then some (s.length - 1 - r) else none

/-- Embedding of `os.path.splitext` on a separator-free file name: split at the
last dot, except that a run of leading dots yields no extension. -/
def splitExt (s : List Char) : List Char × List Char :=
  match lastDotIdx s with
  | none => (s, [])
  | some i => if (s.take i).all (fun c => c = ('.')) then (s, []) else (s.take i, s.drop i)

/-- `os.path.splitext(s)[0]`. -/
def stemOf (s : List Char) : List Char := (splitExt s).1

/-- `os.path.splitext(s)[1]`. -/
def extOf (s : List Char) : List Char := (splitExt s).2

/-- `file.lower().endswith(".pdf")` from `process_pdfs`. -/
def isPdfName (s : List Char) : Bool := endsWithL (toLowerL s) ((".pdf").data)

/-- Decimal digit to its character, as Python's decimal formatting renders it. -/
def digitChar : Nat → Char
  | 0 => '0' | 1 => '1' | 2 => '2' | 3 => '3' | 4 => '4'
  | 5 => '5' | 6 => '6' | 7 => '7' | 8 => '8' | _ => '9'

/-- Fueled decimal rendering of a natural number (most significant digit
first); fuel `n+1` always suffices for `n`. -/
def natDigitsAux : Nat → Nat → List Char
  | 0, _ => []
  | Nat.succ fuel, n =>
    if n < 10 then [digitChar n]
    else natDigitsAux fuel (n / 10) ++ [digitChar (n % 10)]

/-- Decimal rendering of a natural number, embedding Python `str(n)`. -/
def natDigits (n : Nat) : List Char := natDigitsAux (n + 1) n

/-- Embedding of Python's zero-padded format `f"{n:0wd}"`: left-pad the decimal
rendering with `'0'` to width at least `w`. -/
def padNum (w n : Nat) : List Char :=
  List.replicate (w - (natDigits n).length) ('0') ++ natDigits n

/-- The candidate file name `f"{base_name}{counter:03d}{fileext}"` probed by
`resolve_conflict` in both scripts. -/
def makeName (base ext : List Char) (counter : Nat) : List Char :=
  base ++ padNum 3 counter ++ ext

/-- The `while True` probe loop of `resolve_conflict`, with explicit fuel: try
`makeName base ext counter`; if that name exists in the directory listing,
move to the next counter. -/
def resolveConflictAux (dir : List (List Char)) (base ext : List Char) : Nat → Nat → Option (List Char)
  | _, 0 => none
  | counter, Nat.succ fuel =>
    if makeName base ext counter ∈ dir then resolveConflictAux dir base ext (counter + 1) fuel
    else some (makeName base ext counter)

/-- `resolve_conflict(directory, base_name, fileext)` (identical in
`movierenamer.py` and `pdfrenamer.py`): probe counters sequentially starting
from 1.  The fuel parameter embeds the unbounded `while True` loop. -/
def resolve_conflict (dir : List (List Char)) (base ext : List Char) (fuel : Nat) : Option (List Char) :=
  resolveConflictAux dir base ext 1 fuel

/-- Total wrapper for `resolve_conflict` used by the pipeline models: fuel
`dir.length + 1` reaches a free counter whenever the probed names are distinct,
which holds for the names the scripts build. -/
def resolve_conflictT (dir : List (List Char)) (base ext : List Char) : List Char :=
  (resolve_conflict dir base ext (dir.length + 1)).getD (makeName base ext (dir.length + 1))

/-- First-success property of the probe loop: if counters `c, c+1, …, c+k-1`
are taken and `c+k` is free, the loop starting at `c` with fuel `> k` returns
the name for `c+k`. -/
theorem resolveConflictAux_spec (dir : List (List Char)) (base ext : List Char) :
    ∀ (fuel c k : Nat), (∀ j, j < k → makeName base ext (c + j) ∈ dir) →
      makeName base ext (c + k) ∉ dir → k < fuel →
      resolveConflictAux dir base ext c fuel = some (makeName base ext (c + k)) := by
  intro fuel
  induction fuel with
  | zero => intro c k _ _ hk; omega
  | succ fuel ih =>
    intro c k htaken hfree hk
    cases k with
    | zero =>
      simp only [Nat.add_zero] at hfree
      simp [resolveConflictAux, hfree]
    | succ k =>
      have h0 : makeName base ext (c + 0) ∈ dir := htaken 0 (Nat.succ_pos k)
      simp only [Nat.add_zero] at h0
      have hrec := ih (c + 1) k
        (fun j hj => by
          have := htaken (j + 1) (by omega)
          simpa [Nat.add_assoc, Nat.add_comm 1 j] using this)
        (by simpa [Nat.add_assoc, Nat.add_comm 1 k] using hfree)
        (by omega)
      rw [show c + (k + 1) = c + 1 + k by omega] at hfree ⊢
      simp [resolveConflictAux, h0, hrec]

/-- Hex digit of either case: the character class `[0-9a-f]` under
`re.IGNORECASE`, from `contains_guid` in `pdfrenamer.py`. -/
def isHexChar (c : Char) : Bool :=
  c.isDigit || (('a') ≤ c && c ≤ ('f')) || (('A') ≤ c && c ≤ ('F'))

/-- Consume exactly `n` hex characters, returning the rest of the input. -/
def hexRun : Nat → List Char → Option (List Char)
  | 0, rest => some rest
  | Nat.succ n, c :: rest => if isHexChar c then hexRun n rest else none
  | Nat.succ _, [] => none

/-- Consume one expected literal character. -/
def expectChar (c : Char) : List Char → Option (List Char)
  | x :: rest => if x = c then some rest else none
  | [] => none

/-- Does the GUID pattern `[0-9a-f]{8}-[0-9a-f]{4}-[0-9a-f]{4}-[0-9a-f]{4}-[0-9a-f]{12}`
(case-insensitive) match at the start of the input? -/
def guidAt (s : List Char) : Bool :=
  (Option.bind (Option.bind (Option.bind (Option.bind (Option.bind (Option.bind
    (Option.bind (Option.bind (hexRun 8 s)
      (expectChar ('-'))) (hexRun 4)) (expectChar ('-'))) (hexRun 4))
      (expectChar ('-'))) (hexRun 4)) (expectChar ('-'))) (hexRun 12)).isSome

/-- `contains_guid(filename)` from `pdfrenamer.py`: `re.search` of the GUID
pattern, i.e. a match starting at any position. -/
def contains_guid (s : List Char) : Bool := s.tails.any guidAt

/-- Embedding of Python `str.capitalize()`: first character upper-cased, the
rest lower-cased. -/
def capitalizeWord : List Char → List Char
  | [] => []
  | c :: cs => Char.toUpper c :: cs.map Char.toLower

/-- Embedding of Python `str.split()` (no argument): split on runs of
whitespace, discarding empty pieces.  The first argument is the reversed
accumulator of the word being read. -/
def splitWords : List Char → List Char → List (List Char)
  | cur, [] => if cur = [] then [] else [cur.reverse]
  | cur, c :: cs =>
    if c.isWhitespace then
      (if cur = [] then splitWords [] cs else cur.reverse :: splitWords [] cs)
    else splitWords (c :: cur) cs

/-- The candidate base name built from a caption or summary in both scripts:
`"".join(word.capitalize() for word in s.split())[:47]`. -/
def pascalCaseName (s : List Char) : List Char :=
  ((splitWords [] s).map capitalizeWord).flatten.take 47

/-- The character class kept by `normalize_filename`: `[A-Za-z0-9.\-_]`. -/
def allowedChar (c : Char) : Bool :=
  c.isAlpha || c.isDigit || c = ('.') || c = ('-') || c = ('_')

/-- `normalize_filename(filename)` from `pdfrenamer.py`.  The external Unicode
NFKD normalization (`unicodedata.normalize('NFKD', ·)`) is a parameter; the
`.encode('ascii','ignore')` step drops non-ASCII code points, and the final
`re.sub` keeps only alphanumerics, dot, hyphen and underscore. -/
def normalize_filename (nfkd : List Char → List Char) (s : List Char) : List Char :=
  ((nfkd s).filter (fun c => decide (c.toNat < 128))).filter allowedChar

/-- Consume exactly `n` decimal-digit characters. -/
def digitRun : Nat → List Char → Option (List Char)
  | 0, rest => some rest
  | Nat.succ n, c :: rest => if c.isDigit then digitRun n rest else none
  | Nat.succ _, [] => none

/-- The regex guard `re.match(r'^\d{4}-\d{2}-\d{2}_', file)` of
`prepend_dates_to_filenames`. -/
def datePrefixed (s : List Char) : Bool :=
  (Option.bind (Option.bind (Option.bind (Option.bind (Option.bind
    (digitRun 4 s) (expectChar ('-'))) (digitRun 2)) (expectChar ('-')))
    (digitRun 2)) (expectChar ('_'))).isSome

/-- The date string `datetime.fromtimestamp(mtime).strftime('%Y-%m-%d')` for a
modification time with year `y`, month `m`, day `d` (file modification years
are four-digit, zero-padded fields). -/
def formatDate (y m d : Nat) : List Char :=
  padNum 4 y ++ [('-')] ++ padNum 2 m ++ [('-')] ++ padNum 2 d

/-- The new name computed for one file by `prepend_dates_to_filenames`: prepend
`date_taken + "_"` unless the name already matches `^\d{4}-\d{2}-\d{2}_`. -/
def dateNewName (y m d : Nat) (file : List Char) : List Char :=
  if datePrefixed file then file else formatDate y m d ++ ('_') :: file

/-- A directory with file identity: a list of (name, file id) pairs.  The id
stands for the file's content/inode, so that overwriting is observable. -/
abbrev FDir : Type := List (List Char × Nat)

/-- `os.path.exists(os.path.join(folder, n))` against a directory model. -/
def existsName (d : FDir) (n : List Char) : Bool :=
  (d : List (List Char × Nat)).any (fun p => decide (p.1 = n))

/-- `os.rename(old, new)` within one directory: entries named `old` get the
name `new`, ids unchanged. -/
def renameInDir (oldN newN : List Char) (d : FDir) : FDir :=
  (d : List (List Char × Nat)).map (fun p => if p.1 = oldN then (newN, p.2) else p)

/-- `move_to_originals(file_path, originals_folder, log_directory)` from
`movierenamer.py`, on (working directory, ORIGINALS directory) models.  The
destination keeps the basename; if that name already exists in ORIGINALS the
destination becomes `base_name + "_" + timestamp + extension` (the timestamp
`datetime.now().strftime("%Y%m%d_%H%M%S")` is the parameter `ts`).
`shutil.move` then replaces any file already at the destination.  If the
source name is absent from the working directory, `shutil.move` raises and the
function's `except` clause only logs, leaving both directories unchanged. -/
def move_to_originals (srcName ts : List Char) (working originals : FDir) : FDir × FDir :=
  match (working : List (List Char × Nat)).find? (fun p => decide (p.1 = srcName)) with
  | none => (working, originals)
  | some pr =>
    let destName := if existsName originals srcName then
        stemOf srcName ++ ('_') :: ts ++ extOf srcName
      else srcName
    ((working : List (List Char × Nat)).filter (fun p => decide (¬ p.1 = srcName)),
     ((destName, pr.2) :: (originals : List (List Char × Nat)).filter (fun p => decide (¬ p.1 = destName)) : List (List Char × Nat)))

/-- `fileext = os.path.splitext(file)[1].lower()`, the lower-cased extension
used by every pass of `movierenamer.py`. -/
def extLower (name : List Char) : List Char := toLowerL (extOf name)

/-- The per-file body of `generate_captions` after a non-empty caption is
produced (lines 166-173 of `movierenamer.py`): resolve a free name for the
PascalCase caption, `os.rename` the file to it, then call `move_to_originals`
on the old path — which at that point no longer exists. -/
def captionRenameStep (srcName caption ts : List Char) (working originals : FDir) : FDir × FDir :=
  let newName := resolve_conflictT ((working : List (List Char × Nat)).map Prod.fst)
    (pascalCaseName caption) (extLower srcName)
  move_to_originals srcName ts (renameInDir srcName newName working) originals

/-- The per-file body of `prepend_dates_to_filenames` for a file without the
date prefix (lines 188-194 of `movierenamer.py`): `os.rename` to
`date_taken + "_" + file`, then `move_to_originals` on the old path. -/
def dateRenameStep (srcName : List Char) (y m d : Nat) (ts : List Char) (working originals : FDir) : FDir × FDir :=
  move_to_originals srcName ts (renameInDir srcName (dateNewName y m d srcName) working) originals

/-- Observable per-file actions of the passes. -/
inductive Event : Type
  | log (msg : List Char) : Event
  | rename (root oldN newN : List Char) : Event
  | summarize (root name : List Char) : Event
  | caption (root name : List Char) : Event
  | convert (root name : List Char) : Event
  | compress (root name : List Char) : Event
  deriving DecidableEq

/-- `SUPPORTED_EXTENSIONS = [".mp4", ".mov"]` from `movierenamer.py`. -/
def supportedExts : List (List Char) := [(".mp4").data, (".mov").data]

/-- The skip guard `"ORIGINALS" in root or "DUPLICATES" in root` used by the
caption, date and compression passes of `movierenamer.py`. -/
def skipRoot (root : List Char) : Bool :=
  containsSub root (("ORIGINALS").data) || containsSub root (("DUPLICATES").data)

/-- One file as seen by the video passes: its directory path `root`, the names
listed in `root`, the file `name`, the combined BLIP `caption` the model
produces for it, and the year/month/day of its modification time. -/
structure VidEntry : Type where
  root : List Char
  listing : List (List Char)
  name : List Char
  caption : List Char
  y : Nat
  m : Nat
  d : Nat
  deriving DecidableEq

/-- Events of `convert_mov_files` for one walked file: every `.mov` file is
converted; this pass has no ORIGINALS/DUPLICATES guard. -/
def convertEntryEvents (e : VidEntry) : List Event :=
  if extLower e.name = ((".mov").data) then [Event.convert e.root e.name] else []

/-- Events of `generate_captions` for one walked file: for a supported
extension outside the skip folders, the BLIP captioning call is made; a
non-empty caption leads to a rename onto the conflict-resolved PascalCase
name. -/
def captionEntryEvents (e : VidEntry) : List Event :=
  if extLower e.name ∈ supportedExts then
    if skipRoot e.root then []
    else Event.caption e.root e.name ::
      (if e.caption = [] then []
       else [Event.rename e.root e.name
         (resolve_conflictT e.listing (pascalCaseName e.caption) (extLower e.name))])
  else []

/-- Events of `prepend_dates_to_filenames` for one walked file. -/
def dateEntryEvents (e : VidEntry) : List Event :=
  if extLower e.name ∈ supportedExts then
    if skipRoot e.root then []
    else if datePrefixed e.name then []
    else [Event.rename e.root e.name (dateNewName e.y e.m e.d e.name)]
  else []

/-- Events of `compress_videos` for one walked file. -/
def compressEntryEvents (e : VidEntry) : List Event :=
  if extLower e.name = ((".mp4").data) && !(containsSub (toLowerL e.name) (("_compressed").data)) then
    if skipRoot e.root then []
    else [Event.compress e.root e.name]
  else []

/-- The caption pass over the walked files. -/
def captionPassEvents (entries : List VidEntry) : List Event :=
  (entries.map captionEntryEvents).flatten

/-- One file as seen by `process_pdfs`: its directory path, the listing of that
directory, the file name, and the string `summarize_content` returns for its
cleaned combined text (the wrapped PyPDF2 extraction and BART summarization
are external calls and enter the model through this field; on an internal
failure they yield the empty string). -/
structure PdfEntry : Type where
  root : List Char
  listing : List (List Char)
  name : List Char
  summary : List Char
  deriving DecidableEq

/-- The name a PDF file carries when the GUID check runs: the normalized name,
except that names starting with "untitled" (case-insensitively) have been
renamed to a conflict-free `Document{counter:03d}.pdf`. -/
def effectivePdfName (nfkd : List Char → List Char) (e : PdfEntry) : List Char :=
  if startsWithL (toLowerL (normalize_filename nfkd e.name)) (("untitled").data) then
    resolve_conflictT e.listing (("Document").data) ((".pdf").data)
  else normalize_filename nfkd e.name

/-- Events of the `process_pdfs` loop body for one walked file (lines 118-172
of `pdfrenamer.py`): normalization rename if the name changes, untitled
rename, and — only when the effective base name contains a GUID — the
extraction/summarization call followed by a rename when the PascalCase summary
is non-empty. -/
def pdfEntryEvents (nfkd : List Char → List Char) (e : PdfEntry) : List Event :=
  if isPdfName e.name then
    (if e.name = normalize_filename nfkd e.name then []
     else [Event.rename e.root e.name (normalize_filename nfkd e.name)]) ++
    (if startsWithL (toLowerL (normalize_filename nfkd e.name)) (("untitled").data) then
       [Event.rename e.root (normalize_filename nfkd e.name) (effectivePdfName nfkd e)]
     else []) ++
    (if contains_guid (stemOf (effectivePdfName nfkd e)) then
       Event.summarize e.root (effectivePdfName nfkd e) ::
         (if pascalCaseName e.summary = [] then []
          else [Event.rename e.root (effectivePdfName nfkd e)
            (resolve_conflictT e.listing (pascalCaseName e.summary) ((".pdf").data))])
     else [])
  else []

/-- The message logged and printed by `process_pdfs` when the top-level listing
holds no PDF. -/
def noPdfMsg : List Char := ("No PDF files found with supported extensions.").data

/-- `process_pdfs(directory)` as its event trace: the existence check
`any(file.lower().endswith(".pdf") for file in os.listdir(directory))` looks
only at the top-level listing `topFiles`; when it fails the function logs and
returns before the recursive `os.walk` loop over `entries`. -/
def processPdfsEvents (nfkd : List Char → List Char) (topFiles : List (List Char))
    (entries : List PdfEntry) : List Event :=
  if topFiles.any isPdfName then (entries.map (pdfEntryEvents nfkd)).flatten
  else [Event.log noPdfMsg]

/-- Is an event a summarization call? -/
def notSummarizeEv : Event → Bool
  | Event.summarize _ _ => false
  | _ => true

/-- A fallible `os.rename(a, b)`: the oracle `rf` says which rename calls
raise `OSError`. -/
def osRenameP (rf : List Char → List Char → Bool) (a b : List Char) : Except Unit Unit :=
  if rf a b then Except.error () else Except.ok ()

/-- A `try:/except Exception:` block that logs and continues: any raised
exception is swallowed. -/
def handled (x : Except Unit Unit) : Except Unit Unit :=
  match x with
  | Except.error _ => Except.ok ()
  | Except.ok _ => Except.ok ()

/-- `convert_mov_files` body for one file: `convert_mov_to_mp4` wraps the
whole conversion (the moviepy calls, whose failure the oracle `cf` decides,
and the move) in `try/except`. -/
def convertFileRun (cf : Bool) (e : VidEntry) : Except Unit Unit :=
  if extLower e.name = ((".mov").data) then
    handled (if cf then Except.error () else Except.ok ())
  else Except.ok ()

/-- `generate_captions` body for one file: captioning is internally wrapped
and yields a (possibly empty) string; the rename and move are wrapped in the
pass's own `try/except`, which logs and continues. -/
def captionFileRun (rf : List Char → List Char → Bool) (e : VidEntry) : Except Unit Unit :=
  if extLower e.name ∈ supportedExts then
    if skipRoot e.root then Except.ok ()
    else if e.caption = [] then Except.ok ()
    else handled (osRenameP rf e.name
      (resolve_conflictT e.listing (pascalCaseName e.caption) (extLower e.name)))
  else Except.ok ()

/-- `prepend_dates_to_filenames` body for one file: the rename and move are
wrapped in the pass's `try/except`. -/
def dateFileRun (rf : List Char → List Char → Bool) (e : VidEntry) : Except Unit Unit :=
  if extLower e.name ∈ supportedExts then
    if skipRoot e.root then Except.ok ()
    else if datePrefixed e.name then Except.ok ()
    else handled (osRenameP rf e.name (dateNewName e.y e.m e.d e.name))
  else Except.ok ()

/-- `compress_videos` body for one file: `compress_mp4` wraps the moviepy
calls in `try/except` and returns `None` on failure, after which only the
exception-safe `move_to_originals` runs. -/
def compressFileRun (cf : Bool) (e : VidEntry) : Except Unit Unit :=
  if extLower e.name = ((".mp4").data) && !(containsSub (toLowerL e.name) (("_compressed").data)) then
    if skipRoot e.root then Except.ok ()
    else handled (if cf then Except.error () else Except.ok ())
  else Except.ok ()

/-- The `process_pdfs` loop body for one file.  The PyPDF2 extraction and the
BART summarization are wrapped in their own `try/except` and so always return
a string (entering the model through `e.summary`), but the three `os.rename`
call sites — the normalization rename, the untitled rename inside
`rename_untitled_file`, and the final rename — stand outside any handler, so
a failure there escapes as `Except.error`. -/
def pdfFileStep (rf : List Char → List Char → Bool) (nfkd : List Char → List Char)
    (e : PdfEntry) : Except Unit Unit :=
  if isPdfName e.name then
    Except.bind
      (if e.name = normalize_filename nfkd e.name then Except.ok ()
       else osRenameP rf e.name (normalize_filename nfkd e.name))
      (fun _ => Except.bind
        (if startsWithL (toLowerL (normalize_filename nfkd e.name)) (("untitled").data) then
           osRenameP rf (normalize_filename nfkd e.name) (effectivePdfName nfkd e)
         else Except.ok ())
        (fun _ =>
          if contains_guid (stemOf (effectivePdfName nfkd e)) then
            if pascalCaseName e.summary = [] then Except.ok ()
            else osRenameP rf (effectivePdfName nfkd e)
              (resolve_conflictT e.listing (pascalCaseName e.summary) ((".pdf").data))
          else Except.ok ()))
  else Except.ok ()

/-- The `os.walk` loop of `process_pdfs`: the per-file bodies run in sequence
with no surrounding handler, so the first escaping exception aborts the
pass. -/
def pdfPassRun (rf : List Char → List Char → Bool) (nfkd : List Char → List Char) :
    List PdfEntry → Except Unit Unit
  | [] => Except.ok ()
  | e :: es => Except.bind (pdfFileStep rf nfkd e) (fun _ => pdfPassRun rf nfkd es)

/-- `process_pdfs(directory)` as a fallible computation: the top-level
existence check, then the walk. -/
def process_pdfs_run (rf : List Char → List Char → Bool) (nfkd : List Char → List Char)
    (topFiles : List (List Char)) (entries : List PdfEntry) : Except Unit Unit :=
  if topFiles.any isPdfName then pdfPassRun rf nfkd entries else Except.ok ()

theorem digitChar_isDigit (d : Nat) : (digitChar d).isDigit = true := by
  unfold digitChar
  split <;> decide

theorem natDigitsAux_digit : ∀ (fuel n : Nat) (c : Char), c ∈ natDigitsAux fuel n → c.isDigit = true := by
  intro fuel
  induction fuel with
  | zero => intro n c h; simp [natDigitsAux] at h
  | succ fuel ih =>
    intro n c h
    by_cases h10 : n < 10
    · simp [natDigitsAux, h10] at h
      subst h
      exact digitChar_isDigit n
    · simp [natDigitsAux, h10] at h
      rcases h with h | h
      · exact ih _ _ h
      · subst h
        exact digitChar_isDigit _

theorem natDigitsAux_length_le : ∀ (fuel n w : Nat), n < fuel → n < 10 ^ w → 1 ≤ w →
    (natDigitsAux fuel n).length ≤ w := by
  intro fuel
  induction fuel with
  | zero => intro n w h _ _; omega
  | succ fuel ih =>
    intro n w hfuel hpow hw
    by_cases h10 : n < 10
    · simp [natDigitsAux, h10]
      omega
    · have hw2 : 2 ≤ w := by
        by_contra hlt
        have hw1 : w = 1 := by omega
        subst hw1
        simp at hpow
        omega
      have hrecfuel : n / 10 < fuel := by
        have : n / 10 < n := Nat.div_lt_self (by omega) (by omega)
        omega
      have hpow' : n / 10 < 10 ^ (w - 1) := by
        rw [Nat.div_lt_iff_lt_mul (by omega)]
        have heq : 10 ^ (w - 1) * 10 = 10 ^ w := by
          rw [← pow_succ]
          congr 1
          omega
        omega
      have hrec := ih (n / 10) (w - 1) hrecfuel hpow' (by omega)
      simp [natDigitsAux, h10]
      omega

theorem padNum_digit (w n : Nat) (c : Char) (h : c ∈ padNum w n) : c.isDigit = true := by
  simp [padNum] at h
  rcases h with ⟨_, h⟩ | h
  · subst h
    decide
  · exact natDigitsAux_digit _ _ _ h

theorem padNum_length (w n : Nat) (hn : n < 10 ^ w) (hw : 1 ≤ w) : (padNum w n).length = w := by
  have hle : (natDigitsAux (n + 1) n).length ≤ w := natDigitsAux_length_le (n + 1) n w (by omega) hn hw
  simp [padNum, natDigits]
  omega

theorem digitRun_append : ∀ (l : List Char), (∀ c ∈ l, c.isDigit = true) →
    ∀ rest, digitRun l.length (l ++ rest) = some rest := by
  intro l
  induction l with
  | nil => intro _ rest; simp [digitRun]
  | cons c cs ih =>
    intro h rest
    have hc : c.isDigit = true := h c (List.mem_cons_self _ _)
    simp only [List.length_cons, List.cons_append, digitRun, hc, if_true]
    exact ih (fun x hx => h x (List.mem_cons_of_mem _ hx)) rest

theorem digitRun_exact (n : Nat) (l rest : List Char) (hd : ∀ c ∈ l, c.isDigit = true)
    (hl : l.length = n) : digitRun n (l ++ rest) = some rest := by
  subst hl
  exact digitRun_append l hd rest

theorem expectChar_cons (c : Char) (t : List Char) : expectChar c (c :: t) = some t := by
  simp [expectChar]

theorem datePrefixed_format (y m d : Nat) (rest : List Char)
    (hy : y < 10000) (hm : m < 100) (hd : d < 100) :
    datePrefixed (formatDate y m d ++ ('_') :: rest) = true := by
  have h4 : (padNum 4 y).length = 4 := padNum_length 4 y (by omega) (by omega)
  have h2m : (padNum 2 m).length = 2 := padNum_length 2 m (by omega) (by omega)
  have h2d : (padNum 2 d).length = 2 := padNum_length 2 d (by omega) (by omega)
  have hshape : formatDate y m d ++ ('_') :: rest
      = padNum 4 y ++ (('-') :: (padNum 2 m ++ (('-') :: (padNum 2 d ++ (('_') :: rest))))) := by
    simp [formatDate, List.append_assoc]
  rw [datePrefixed, hshape]
  rw [digitRun_exact 4 (padNum 4 y) _ (fun c hc => padNum_digit _ _ _ hc) h4]
  simp only [Option.some_bind]
  rw [expectChar_cons]
  simp only [Option.some_bind]
  rw [digitRun_exact 2 (padNum 2 m) _ (fun c hc => padNum_digit _ _ _ hc) h2m]
  simp only [Option.some_bind]
  rw [expectChar_cons]
  simp only [Option.some_bind]
  rw [digitRun_exact 2 (padNum 2 d) _ (fun c hc => padNum_digit _ _ _ hc) h2d]
  simp only [Option.some_bind]
  rw [expectChar_cons]
  rfl

theorem charOfNat_ws (k : Nat) (h1 : 65 ≤ k) (h2 : k ≤ 122) :
    (Char.ofNat k).isWhitespace = false := by
  interval_cases k <;> decide

theorem toUpper_ws (c : Char) (h : c.isWhitespace = false) :
    (Char.toUpper c).isWhitespace = false := by
  by_cases hcond : c.toNat ≥ 97 ∧ c.toNat ≤ 122
  · have heq : Char.toUpper c = Char.ofNat (c.toNat - 32) := by
      unfold Char.toUpper
      rw [if_pos hcond]
    rw [heq]
    obtain ⟨ha, hb⟩ := hcond
    exact charOfNat_ws _ (by omega) (by omega)
  · have heq : Char.toUpper c = c := by
      unfold Char.toUpper
      rw [if_neg hcond]
    rw [heq]
    exact h

theorem toLower_ws (c : Char) (h : c.isWhitespace = false) :
    (Char.toLower c).isWhitespace = false := by
  by_cases hcond : c.toNat ≥ 65 ∧ c.toNat ≤ 90
  · have heq : Char.toLower c = Char.ofNat (c.toNat + 32) := by
      unfold Char.toLower
      rw [if_pos hcond]
    rw [heq]
    obtain ⟨ha, hb⟩ := hcond
    exact charOfNat_ws _ (by omega) (by omega)
  · have heq : Char.toLower c = c := by
      unfold Char.toLower
      rw [if_neg hcond]
    rw [heq]
    exact h

theorem capitalizeWord_ws (w : List Char) (h : ∀ c ∈ w, c.isWhitespace = false) :
    ∀ c ∈ capitalizeWord w, c.isWhitespace = false := by
  cases w with
  | nil => intro c hc; simp [capitalizeWord] at hc
  | cons a as =>
    intro c hc
    simp only [capitalizeWord, List.mem_cons] at hc
    rcases hc with hc | hc
    · subst hc
      exact toUpper_ws a (h a (List.mem_cons_self _ _))
    · rcases List.mem_map.mp hc with ⟨x, hx, rfl⟩
      exact toLower_ws x (h x (List.mem_cons_of_mem _ hx))

theorem splitWords_ws : ∀ (s cur : List Char), (∀ c ∈ cur, c.isWhitespace = false) →
    ∀ w ∈ splitWords cur s, ∀ c ∈ w, c.isWhitespace = false := by
  intro s
  induction s with
  | nil =>
    intro cur hcur w hw c hc
    by_cases h : cur = []
    · simp [splitWords, h] at hw
    · simp only [splitWords, h, if_false, List.mem_singleton] at hw
      subst hw
      exact hcur c (List.mem_reverse.mp hc)
  | cons a as ih =>
    intro cur hcur w hw c hc
    by_cases hws : a.isWhitespace = true
    · by_cases h : cur = []
      · simp only [splitWords, hws, if_true, h, if_pos rfl] at hw
        exact ih [] (by simp) w hw c hc
      · simp only [splitWords, hws, if_true, h, if_false, List.mem_cons] at hw
        rcases hw with hw | hw
        · subst hw
          exact hcur c (List.mem_reverse.mp hc)
        · exact ih [] (by simp) w hw c hc
    · simp only [splitWords, hws, if_false] at hw
      refine ih (a :: cur) ?_ w hw c hc
      intro x hx
      rcases List.mem_cons.mp hx with hx | hx
      · subst hx
        simpa using hws
      · exact hcur x hx

/-- C1: for every directory state, base name and extension, if `N` is the
least counter `≥ 1` whose candidate name `base ++ counter (zero-padded to
width 3) ++ ext` does not already exist in the directory, then
`resolve_conflict` (run with enough fuel for its `while True` loop to reach
`N`) returns exactly that name, probing counters sequentially from 1. -/
theorem C1_resolve_conflict_least (dir : List (List Char)) (base ext : List Char)
    (N fuel : Nat) (h1 : 1 ≤ N) (h2 : makeName base ext N ∉ dir)
    (h3 : ∀ m, 1 ≤ m → m < N → makeName base ext m ∈ dir) (hf : N ≤ fuel) :
    resolve_conflict dir base ext fuel = some (makeName base ext N) := by
  have hspec := resolveConflictAux_spec dir base ext fuel 1 (N - 1)
    (fun j hj => h3 (1 + j) (by omega) (by omega))
    (by rw [show 1 + (N - 1) = N by omega]; exact h2)
    (by omega)
  rw [show 1 + (N - 1) = N by omega] at hspec
  exact hspec

/-- Witness for C1: in a directory already holding `A001.mp4`, the first free
counter is 2 and the probe returns `A002.mp4`. -/
theorem C1_witness :
    resolve_conflict [("A001.mp4").data] (("A").data) ((".mp4").data) 2
      = some (("A002.mp4").data) := by
  have h := C1_resolve_conflict_least [("A001.mp4").data] (("A").data) ((".mp4").data) 2 2
    (by omega) (by decide)
    (by intro m hm1 hm2; interval_cases m; decide)
    (by omega)
  exact h.trans (by decide)

/-- C2: the candidate base name built from a caption or summary — split on
whitespace, capitalize each word, concatenate with no separator, truncate to
47 — always has length at most 47 and contains no whitespace character. -/
theorem C2_pascal_case_short_and_no_ws (s : List Char) :
    (pascalCaseName s).length ≤ 47 ∧ ∀ c ∈ pascalCaseName s, c.isWhitespace = false := by
  constructor
  · simp only [pascalCaseName, List.length_take]
    omega
  · intro c hc
    have hc' : c ∈ ((splitWords [] s).map capitalizeWord).flatten :=
      List.take_subset _ _ hc
    rcases List.mem_flatten.mp hc' with ⟨w, hw, hcw⟩
    rcases List.mem_map.mp hw with ⟨w0, hw0, rfl⟩
    exact capitalizeWord_ws w0 (splitWords_ws s [] (by simp) w0 hw0) c hcw

/-- C8: the date pass prepends `YYYY-MM-DD_` (from the modification time)
exactly when the name does not already match `^\d{4}-\d{2}-\d{2}_`, leaves a
matching name unchanged, and is idempotent on filenames: a second application,
with any other date, changes nothing. -/
theorem C8_date_prefix_idempotent (y m d y2 m2 d2 : Nat) (name : List Char)
    (hy : y < 10000) (hm : m < 100) (hd : d < 100) :
    (datePrefixed name = false → dateNewName y m d name = formatDate y m d ++ ('_') :: name)
    ∧ (datePrefixed name = true → dateNewName y m d name = name)
    ∧ dateNewName y2 m2 d2 (dateNewName y m d name) = dateNewName y m d name := by
  refine ⟨?_, ?_, ?_⟩
  · intro h
    simp [dateNewName, h]
  · intro h
    simp [dateNewName, h]
  · by_cases h : datePrefixed name = true
    · simp [dateNewName, h]
    · have hfalse : datePrefixed name = false := by simpa using h
      have h1 : dateNewName y m d name = formatDate y m d ++ ('_') :: name := by
        simp [dateNewName, hfalse]
      rw [h1]
      have h2 : datePrefixed (formatDate y m d ++ ('_') :: name) = true :=
        datePrefixed_format y m d name hy hm hd
      simp [dateNewName, h2]

/-- Witness for C8: a file `video.mp4` modified on 2024-05-07 is renamed to
`2024-05-07_video.mp4`, and running the pass again (under any later date)
leaves that name unchanged. -/
theorem C8_witness :
    dateNewName 2024 5 7 (("video.mp4").data) = (("2024-05-07_video.mp4").data)
    ∧ dateNewName 2025 1 1 (dateNewName 2024 5 7 (("video.mp4").data))
        = dateNewName 2024 5 7 (("video.mp4").data) := by
  have h := C8_date_prefix_idempotent 2024 5 7 2025 1 1 (("video.mp4").data)
    (by omega) (by omega) (by omega)
  exact ⟨(h.1 (by decide)).trans (by decide), h.2.2⟩

/-- C10: for any NFKD normalization (any function fixing strings made of the
kept characters, as Unicode NFKD fixes ASCII), the output of
`normalize_filename` contains only ASCII letters, digits, dot, hyphen and
underscore, and `normalize_filename` is idempotent. -/
theorem C10_normalize_filename_charset_idem (nfkd : List Char → List Char) (s : List Char)
    (h : ∀ t : List Char, (∀ c ∈ t, allowedChar c = true) → nfkd t = t) :
    (∀ c ∈ normalize_filename nfkd s, allowedChar c = true) ∧
      normalize_filename nfkd (normalize_filename nfkd s) = normalize_filename nfkd s := by
  have hall : ∀ c ∈ normalize_filename nfkd s, allowedChar c = true := by
    intro c hc
    exact List.of_mem_filter hc
  refine ⟨hall, ?_⟩
  have hascii : ∀ c ∈ normalize_filename nfkd s, decide (c.toNat < 128) = true := by
    intro c hc
    rw [normalize_filename] at hc
    have hc2 : c ∈ (nfkd s).filter (fun x => decide (x.toNat < 128)) :=
      List.mem_of_mem_filter hc
    exact (List.mem_filter.mp hc2).2
  have hstep : normalize_filename nfkd (normalize_filename nfkd s)
      = ((normalize_filename nfkd s).filter (fun c => decide (c.toNat < 128))).filter allowedChar := by
    rw [normalize_filename, h _ hall]
  rw [hstep, List.filter_eq_self.mpr hascii, List.filter_eq_self.mpr hall]

/-- Witness for C10: idempotence at a concrete name, with the identity as the
NFKD model. -/
theorem C10_witness :
    normalize_filename id (normalize_filename id (("a b'.pdf").data))
      = normalize_filename id (("a b'.pdf").data) :=
  (C10_normalize_filename_charset_idem id (("a b'.pdf").data) (fun _ _ => rfl)).2

/-- C9: when no file in the top-level listing ends in `.pdf`
(case-insensitively), `process_pdfs` logs "No PDF files found with supported
extensions." and returns with no rename events, whatever PDF files the
recursive walk would find. -/
theorem C9_toplevel_check_only (nfkd : List Char → List Char) (topFiles : List (List Char))
    (entries : List PdfEntry) (h : topFiles.any isPdfName = false) :
    processPdfsEvents nfkd topFiles entries = [Event.log noPdfMsg] := by
  simp [processPdfsEvents, h]

/-- Witness for C9: the top level holds only `notes.txt`, but a subdirectory
holds `Report.pdf`; the pass still only logs the no-PDF message. -/
theorem C9_witness :
    processPdfsEvents id [("notes.txt").data]
      [⟨("sub").data, [("Report.pdf").data], ("Report.pdf").data, ("some words").data⟩]
      = [Event.log noPdfMsg] :=
  C9_toplevel_check_only id [("notes.txt").data]
    [⟨("sub").data, [("Report.pdf").data], ("Report.pdf").data, ("some words").data⟩]
    (by decide)

/-- Counterexample for C3 as stated: `Report.pdf` matches the extension
filter, yet the walk produces no summarization call for it — its name holds
no GUID, so the extraction/summarization branch is skipped. -/
theorem C3_counterexample :
    isPdfName (("Report.pdf").data) = true
    ∧ (processPdfsEvents id [("Report.pdf").data]
        [⟨(".").data, [("Report.pdf").data], ("Report.pdf").data, ("a good summary").data⟩]).all
        notSummarizeEv = true := by
  decide

/-- C3 (amended): provided some top-level file ends in `.pdf`, the
summarization call is made for every walked `.pdf` file whose effective base
name — after normalization and untitled-renaming — contains a GUID; and in
the video script the captioning call is made for every `.mp4`/`.mov` file
outside the ORIGINALS/DUPLICATES folders. -/
theorem C3_amended_model_calls (nfkd : List Char → List Char) (topFiles : List (List Char))
    (entries : List PdfEntry) (e : PdfEntry) (ves : List VidEntry) (v : VidEntry)
    (he : e ∈ entries) (htl : topFiles.any isPdfName = true)
    (hpdf : isPdfName e.name = true)
    (hguid : contains_guid (stemOf (effectivePdfName nfkd e)) = true)
    (hv : v ∈ ves) (hext : extLower v.name ∈ supportedExts) (hskip : skipRoot v.root = false) :
    Event.summarize e.root (effectivePdfName nfkd e) ∈ processPdfsEvents nfkd topFiles entries
    ∧ Event.caption v.root v.name ∈ captionPassEvents ves := by
  constructor
  · have hin : Event.summarize e.root (effectivePdfName nfkd e) ∈ pdfEntryEvents nfkd e := by
      rw [pdfEntryEvents, if_pos hpdf]
      simp only [List.mem_append]
      right
      rw [if_pos hguid]
      exact List.mem_cons_self _ _
    rw [processPdfsEvents, if_pos htl]
    exact List.mem_flatten.mpr ⟨pdfEntryEvents nfkd e, List.mem_map_of_mem _ he, hin⟩
  · have hin : Event.caption v.root v.name ∈ captionEntryEvents v := by
      rw [captionEntryEvents, if_pos hext, if_neg (by simp [hskip])]
      exact List.mem_cons_self _ _
    exact List.mem_flatten.mpr ⟨captionEntryEvents v, List.mem_map_of_mem _ hv, hin⟩

/-- Witness for the amended C3: a GUID-named PDF is summarized; an `.mp4` in a
plain directory is captioned. -/
theorem C3_amended_witness :
    Event.summarize (("docs").data)
      (effectivePdfName id
        ⟨("docs").data, [("6f9619ff-8b86-d011-b42d-00c04fc964ff.pdf").data],
         ("6f9619ff-8b86-d011-b42d-00c04fc964ff.pdf").data, ("a good summary").data⟩)
      ∈ processPdfsEvents id [("6f9619ff-8b86-d011-b42d-00c04fc964ff.pdf").data]
        [⟨("docs").data, [("6f9619ff-8b86-d011-b42d-00c04fc964ff.pdf").data],
          ("6f9619ff-8b86-d011-b42d-00c04fc964ff.pdf").data, ("a good summary").data⟩]
    ∧ Event.caption (("videos").data) (("clip.mp4").data)
      ∈ captionPassEvents [⟨("videos").data, [("clip.mp4").data], ("clip.mp4").data,
          ("a dog").data, 2024, 1, 1⟩] :=
  C3_amended_model_calls id
    [("6f9619ff-8b86-d011-b42d-00c04fc964ff.pdf").data]
    [⟨("docs").data, [("6f9619ff-8b86-d011-b42d-00c04fc964ff.pdf").data],
      ("6f9619ff-8b86-d011-b42d-00c04fc964ff.pdf").data, ("a good summary").data⟩]
    ⟨("docs").data, [("6f9619ff-8b86-d011-b42d-00c04fc964ff.pdf").data],
      ("6f9619ff-8b86-d011-b42d-00c04fc964ff.pdf").data, ("a good summary").data⟩
    [⟨("videos").data, [("clip.mp4").data], ("clip.mp4").data, ("a dog").data, 2024, 1, 1⟩]
    ⟨("videos").data, [("clip.mp4").data], ("clip.mp4").data, ("a dog").data, 2024, 1, 1⟩
    (by decide) (by decide) (by decide) (by decide) (by decide) (by decide) (by decide)

/-- Counterexample for C4 as stated: the MOV-conversion pass has no
ORIGINALS/DUPLICATES guard, so a `.mov` file inside an ORIGINALS folder is
converted. -/
theorem C4_counterexample :
    containsSub (("/d/ORIGINALS").data) (("ORIGINALS").data) = true
    ∧ convertEntryEvents ⟨("/d/ORIGINALS").data, [], ("a.mov").data, [], 0, 0, 0⟩
        = [Event.convert (("/d/ORIGINALS").data) (("a.mov").data)] := by
  decide

/-- C4 (amended): the captioning, date-prefixing and compression passes
produce no action for a file whose directory path contains "ORIGINALS"; the
MOV-conversion pass, however, carries no such guard. -/
theorem C4_amended_skip_guard (e : VidEntry)
    (h : containsSub e.root (("ORIGINALS").data) = true) :
    captionEntryEvents e = [] ∧ dateEntryEvents e = [] ∧ compressEntryEvents e = [] := by
  have hs : skipRoot e.root = true := by
    simp [skipRoot, h]
  refine ⟨?_, ?_, ?_⟩
  · simp [captionEntryEvents, hs]
  · simp [dateEntryEvents, hs]
  · simp [compressEntryEvents, hs]

/-- Witness for the amended C4: an `.mp4` under an ORIGINALS folder is left
untouched by the caption, date and compression passes. -/
theorem C4_witness :
    captionEntryEvents ⟨("/x/ORIGINALS/sub").data, [], ("b.mp4").data, ("cap").data, 2024, 1, 1⟩ = []
    ∧ dateEntryEvents ⟨("/x/ORIGINALS/sub").data, [], ("b.mp4").data, ("cap").data, 2024, 1, 1⟩ = []
    ∧ compressEntryEvents ⟨("/x/ORIGINALS/sub").data, [], ("b.mp4").data, ("cap").data, 2024, 1, 1⟩ = [] :=
  C4_amended_skip_guard
    ⟨("/x/ORIGINALS/sub").data, [], ("b.mp4").data, ("cap").data, 2024, 1, 1⟩ (by decide)

/-- C5 evaluated at a failing input: after the caption pass renames
`IMG.mp4` (id 5) to `ADog001.mp4`, `move_to_originals` is called on the stale
path `IMG.mp4`, which no longer exists; `shutil.move` raises, the `except`
clause only logs, and the ORIGINALS folder stays empty while the renamed file
remains in the working directory.  The date pass behaves the same way. -/
theorem C5_stale_move_after_rename :
    (captionRenameStep (("IMG.mp4").data) (("a dog").data) (("20240101_120000").data)
        [((("IMG.mp4").data), 5)] []).2 = ([] : FDir)
    ∧ ((("ADog001.mp4").data), 5) ∈
        (captionRenameStep (("IMG.mp4").data) (("a dog").data) (("20240101_120000").data)
          [((("IMG.mp4").data), 5)] []).1
    ∧ (dateRenameStep (("IMG.mp4").data) 2024 5 7 (("20240101_120000").data)
        [((("IMG.mp4").data), 6)] []).2 = ([] : FDir)
    ∧ ((("2024-05-07_IMG.mp4").data), 6) ∈
        (dateRenameStep (("IMG.mp4").data) 2024 5 7 (("20240101_120000").data)
          [((("IMG.mp4").data), 6)] []).1 := by
  decide

theorem handled_ok (x : Except Unit Unit) : handled x = Except.ok () := by
  cases x <;> rfl

theorem except_ok_bind (f : Unit → Except Unit Unit) : Except.bind (Except.ok ()) f = f () := rfl

theorem pdfFileStep_ok (rf : List Char → List Char → Bool) (nfkd : List Char → List Char)
    (e : PdfEntry) (hrf : ∀ a b, rf a b = false) : pdfFileStep rf nfkd e = Except.ok () := by
  have hok : ∀ a b, osRenameP rf a b = Except.ok () := by
    intro a b
    simp [osRenameP, hrf]
  rw [pdfFileStep]
  simp only [hok, ite_self, except_ok_bind]

theorem pdfPassRun_ok (rf : List Char → List Char → Bool) (nfkd : List Char → List Char)
    (entries : List PdfEntry) (hrf : ∀ a b, rf a b = false) :
    pdfPassRun rf nfkd entries = Except.ok () := by
  induction entries with
  | nil => rfl
  | cons e es ih => simp [pdfPassRun, pdfFileStep_ok rf nfkd e hrf, ih, except_ok_bind]

/-- Counterexample for C6 as stated: the normalization `os.rename` in
`process_pdfs` stands outside any `try/except`; when it raises (oracle
constantly true), the exception escapes the pass. -/
theorem C6_counterexample :
    process_pdfs_run (fun _ _ => true) id [("a b.pdf").data]
      [⟨(".").data, [("a b.pdf").data], ("a b.pdf").data, ("words").data⟩]
      = Except.error () := by
  rfl

/-- C6 (amended): in the video script every per-file body — conversion,
caption rename, date rename, compression — swallows exceptions from its
library call or rename and continues; in the PDF script the extraction and
summarization are wrapped, but the `os.rename` sites are not, and `process_pdfs`
propagates no exception only when no rename call raises. -/
theorem C6_amended_handlers (rf rf2 : List Char → List Char → Bool) (cf : Bool) (e : VidEntry)
    (nfkd : List Char → List Char) (topFiles : List (List Char)) (entries : List PdfEntry)
    (hrf2 : ∀ a b, rf2 a b = false) :
    convertFileRun cf e = Except.ok () ∧ captionFileRun rf e = Except.ok ()
    ∧ dateFileRun rf e = Except.ok () ∧ compressFileRun cf e = Except.ok ()
    ∧ process_pdfs_run rf2 nfkd topFiles entries = Except.ok () := by
  refine ⟨?_, ?_, ?_, ?_, ?_⟩
  · simp [convertFileRun, handled_ok]
  · simp [captionFileRun, handled_ok]
  · simp [dateFileRun, handled_ok]
  · simp [compressFileRun, handled_ok]
  · rw [process_pdfs_run]
    split
    · exact pdfPassRun_ok rf2 nfkd entries hrf2
    · rfl

/-- Witness for the amended C6: with every video-pass rename and library call
failing, the video bodies still return normally; with no PDF rename failing,
`process_pdfs` returns normally. -/
theorem C6_witness :
    convertFileRun true ⟨("v").data, [], ("a.mov").data, [], 2024, 1, 1⟩ = Except.ok ()
    ∧ captionFileRun (fun _ _ => true) ⟨("v").data, [], ("a.mov").data, [], 2024, 1, 1⟩ = Except.ok ()
    ∧ dateFileRun (fun _ _ => true) ⟨("v").data, [], ("a.mov").data, [], 2024, 1, 1⟩ = Except.ok ()
    ∧ compressFileRun true ⟨("v").data, [], ("a.mov").data, [], 2024, 1, 1⟩ = Except.ok ()
    ∧ process_pdfs_run (fun _ _ => false) id [("a b.pdf").data]
        [⟨(".").data, [("a b.pdf").data], ("a b.pdf").data, ("words").data⟩] = Except.ok () :=
  C6_amended_handlers (fun _ _ => true) (fun _ _ => false) true
    ⟨("v").data, [], ("a.mov").data, [], 2024, 1, 1⟩ id [("a b.pdf").data]
    [⟨(".").data, [("a b.pdf").data], ("a b.pdf").data, ("words").data⟩]
    (fun _ _ => rfl)

/-- Counterexample for C7 as stated: when the timestamped fallback name is
itself already present in ORIGINALS, `shutil.move` replaces that file — the
entry `(a_20240101_120000.mp4, id 3)` is gone after the move, so a file
already in ORIGINALS is overwritten. -/
theorem C7_counterexample :
    existsName [((("a.mp4").data), 2), ((("a_20240101_120000.mp4").data), 3)] (("a.mp4").data) = true
    ∧ ((("a_20240101_120000.mp4").data), 3) ∉
        (move_to_originals (("a.mp4").data) (("20240101_120000").data)
          [((("a.mp4").data), 1)]
          [((("a.mp4").data), 2), ((("a_20240101_120000.mp4").data), 3)]).2 := by
  decide

/-- C7 (amended): moving a file into ORIGINALS keeps its basename when that
name is free there; on a collision the destination becomes
`base_name + "_" + timestamp + extension`; and no file already in ORIGINALS is
lost provided the timestamped name is not itself already present (when it is,
that file is overwritten, as the counterexample shows). -/
theorem C7_amended_move (srcName ts : List Char) (working originals : FDir)
    (pr : List Char × Nat)
    (hfind : working.find? (fun p => decide (p.1 = srcName)) = some pr) :
    (existsName originals srcName = false →
      (move_to_originals srcName ts working originals).2 = (srcName, pr.2) :: originals)
    ∧ (existsName originals srcName = true →
      (move_to_originals srcName ts working originals).2
        = (stemOf srcName ++ ('_') :: ts ++ extOf srcName, pr.2)
            :: originals.filter (fun p => decide (¬ p.1 = stemOf srcName ++ ('_') :: ts ++ extOf srcName)))
    ∧ (existsName originals (stemOf srcName ++ ('_') :: ts ++ extOf srcName) = false →
      ∀ q ∈ originals, q ∈ (move_to_originals srcName ts working originals).2) := by
  have hself : ∀ (o : FDir) (n : List Char), existsName o n = false →
      o.filter (fun p => decide (¬ p.1 = n)) = o := by
    intro o n hfree
    apply List.filter_eq_self.mpr
    intro p hp
    simp only [decide_eq_true_eq]
    intro hEq
    have hex : existsName o n = true := by
      simp only [existsName, List.any_eq_true]
      exact ⟨p, hp, by simp [hEq]⟩
    rw [hex] at hfree
    exact Bool.true_eq_false.mp hfree
  refine ⟨?_, ?_, ?_⟩
  · intro hfree
    rw [move_to_originals, hfind]
    simp only [hfree, if_false, Bool.false_eq_true]
    rw [hself originals srcName hfree]
  · intro htaken
    rw [move_to_originals, hfind]
    simp only [htaken, if_true]
  · intro hts
    intro q hq
    rw [move_to_originals, hfind]
    by_cases hsrc : existsName originals srcName = true
    · simp only [hsrc, if_true]
      rw [hself originals _ hts]
      exact List.mem_cons_of_mem _ hq
    · have hfree : existsName originals srcName = false := by
        simpa using hsrc
      simp only [hfree, if_false, Bool.false_eq_true]
      rw [hself originals srcName hfree]
      exact List.mem_cons_of_mem _ hq

/-- Witness for the amended C7: moving `a.mp4` when ORIGINALS already holds a
file of that name lands it at `a_20240101_120000.mp4`, and the pre-existing
entry survives. -/
theorem C7_witness :
    (move_to_originals (("a.mp4").data) (("20240101_120000").data)
      [((("a.mp4").data), 1)] [((("a.mp4").data), 2)]).2
      = [((("a_20240101_120000.mp4").data), 1), ((("a.mp4").data), 2)] := by
  have h := (C7_amended_move (("a.mp4").data) (("20240101_120000").data)
    [((("a.mp4").data), 1)] [((("a.mp4").data), 2)] ((("a.mp4").data), 1)
    (by decide)).2.1 (by decide)
  exact h.trans (by decide)
